import Mathlib

/-!
Shallow embedding of the agent-cli core: the provider registry
(src/lib/provider-config.ts), the validator with its TTL cache
(src/lib/validate.ts), and the launcher with its fallback resolver
(src/lib/launcher.ts), together with theorems settling the spec claims.

Record-typed JavaScript values are modelled as association lists, machine
timestamps as natural numbers of milliseconds, and the I/O performed by a
validation or launch step as explicit oracle functions carried in an
environment record.
-/

namespace AgentCli

/-- Validation block of a provider (providers.ts, field `validation`).
`vtype` models the JSON `type` tag; it is kept as a raw string because
configs are loaded from JSON and may carry tags outside env/http/command. -/
structure ValidationSpec where
  vtype : String
  envKey : Option String := none
  url : Option String := none
  command : Option String := none
deriving DecidableEq, Repr

/-- Provider descriptor (providers.ts, interface `Provider`). `ptype`
models the `type` field, one of api / proxy / gateway / standalone. -/
structure Provider where
  id : String
  name : String
  description : String
  icon : String
  ptype : String
  category : String
  envVars : List (String × String) := []
  envMappings : Option (List (String × String)) := none
  configDir : String
  validation : ValidationSpec
  command : Option String := none
  defaultArgs : Option (List String) := none
  updateCmd : Option (List String) := none
  skipPermissionsArg : Option String := none
  continueArg : Option String := none
  models : Option (List String) := none
  modelEnvVar : Option String := none
deriving DecidableEq, Repr

/-- Partial provider, mirroring the TypeScript `Partial Provider` used for
overrides: every field optional, `none` meaning the key is absent. -/
structure ProviderPatch where
  id : Option String := none
  name : Option String := none
  description : Option String := none
  icon : Option String := none
  ptype : Option String := none
  category : Option String := none
  envVars : Option (List (String × String)) := none
  envMappings : Option (List (String × String)) := none
  configDir : Option String := none
  validation : Option ValidationSpec := none
  command : Option String := none
  defaultArgs : Option (List String) := none
  updateCmd : Option (List String) := none
  skipPermissionsArg : Option String := none
  continueArg : Option String := none
  models : Option (List String) := none
  modelEnvVar : Option String := none
deriving DecidableEq, Repr

/-- Shallow spread-merge of an override patch into a provider: a field
present in the patch wins, an absent field keeps the provider's value.
This is the semantics of the object spread in provider-config.ts line 153. -/
def applyPatch (p : Provider) (o : ProviderPatch) : Provider where
  id := o.id.getD p.id
  name := o.name.getD p.name
  description := o.description.getD p.description
  icon := o.icon.getD p.icon
  ptype := o.ptype.getD p.ptype
  category := o.category.getD p.category
  envVars := o.envVars.getD p.envVars
  envMappings := o.envMappings.orElse (fun _ => p.envMappings)
  configDir := o.configDir.getD p.configDir
  validation := o.validation.getD p.validation
  command := o.command.orElse (fun _ => p.command)
  defaultArgs := o.defaultArgs.orElse (fun _ => p.defaultArgs)
  updateCmd := o.updateCmd.orElse (fun _ => p.updateCmd)
  skipPermissionsArg := o.skipPermissionsArg.orElse (fun _ => p.skipPermissionsArg)
  continueArg := o.continueArg.orElse (fun _ => p.continueArg)
  models := o.models.orElse (fun _ => p.models)
  modelEnvVar := o.modelEnvVar.orElse (fun _ => p.modelEnvVar)

/-- Loaded provider configuration (provider-config.ts, interface
`ProviderConfig`): raw provider list, per-id override map, disabled ids. -/
structure ProviderConfig where
  providers : List Provider
  overrides : List (String × ProviderPatch)
  disabled : List String
deriving DecidableEq, Repr

/-- Record lookup `config.overrides[id]`: first entry whose key matches. -/
def lookupPatch (ov : List (String × ProviderPatch)) (k : String) : Option ProviderPatch :=
  (ov.find? (fun e => e.1 == k)).map (fun e => e.2)

/-- Deduplication filter of getAllProviders: keep a provider only when its
id has not been seen yet, threading the `seenIds` set explicitly. -/
def dedupeById : List Provider → List String → List Provider
  | [], _ => []
  | p :: ps, seen =>
    if seen.contains p.id then dedupeById ps seen
    else p :: dedupeById ps (p.id :: seen)

/-- Override application step of getAllProviders: merge the patch stored
under the provider's id, if any. -/
def applyOverrideFor (cfg : ProviderConfig) (p : Provider) : Provider :=
  match lookupPatch cfg.overrides p.id with
  | some o => applyPatch p o
  | none => p

/-- getAllProviders (provider-config.ts lines 135-157) over an already
loaded config: filter out disabled ids, deduplicate by id keeping the
first occurrence, then apply the override patch to each survivor. -/
def getAllProviders (cfg : ProviderConfig) : List Provider :=
  (dedupeById (cfg.providers.filter (fun p => !(cfg.disabled.contains p.id))) []).map
    (applyOverrideFor cfg)

/-- Parse outcome of the on-disk providers.json, as seen by
loadProviderConfig after `JSON.parse`: either the legacy format (a bare
array of providers) or an object whose three fields may each be absent. -/
inductive RawConfig where
  | legacyArray (providers : List Provider)
  | obj (providers : Option (List Provider))
        (overrides : Option (List (String × ProviderPatch)))
        (disabled : Option (List String))
deriving DecidableEq, Repr

/-- loadProviderConfig (provider-config.ts lines 86-122). The argument is
the result of reading and parsing the config file; `Except.error` models
the read or parse throwing, which the catch block turns into the empty
config. Absent object fields default to empty via the `||` fallbacks. -/
def loadProviderConfig : Except Unit RawConfig → ProviderConfig
  | .error _ => { providers := [], overrides := [], disabled := [] }
  | .ok (.legacyArray ps) => { providers := ps, overrides := [], disabled := [] }
  | .ok (.obj ps ov dis) =>
    { providers := ps.getD [], overrides := ov.getD [], disabled := dis.getD [] }

/-- Result of a validation check (validate.ts, interface
`ValidationResult`). -/
structure ValidationResult where
  valid : Bool
  message : String
deriving DecidableEq, Repr

/-- Outcome of the GET request issued by the http validation branch:
either the request completed with some HTTP status (any status counts),
or the 2-second abort timer fired, or the connection failed. The latter
two both land in the same catch block of validate.ts. -/
inductive FetchOutcome where
  | ok (status : Nat)
  | timeout
  | connError
deriving DecidableEq, Repr

/-- Ambient process state read by a validation check: the caller's
environment variables, the outcome a GET to a given url would have, and
whether `which` finds a given command on the search path. -/
structure Env where
  envVar : String → Option String
  fetch : String → FetchOutcome
  whichFinds : String → Bool

/-- TTL of a cached validation result, in milliseconds
(validate.ts line 117: five minutes). -/
def CACHE_TTL : Nat := 5 * 60 * 1000

/-- Timeout of the basic http reachability GET, in milliseconds
(validate.ts line 193). -/
def FETCH_TIMEOUT_MS : Nat := 2000

/-- Entry of the validation cache: the stored result plus the
`Date.now()` timestamp at which it was stored. -/
structure CacheEntry where
  result : ValidationResult
  timestamp : Nat
deriving DecidableEq, Repr

/-- Validation cache keyed by provider id (validate.ts line 118). -/
abbrev ValidationCache : Type := List (String × CacheEntry)

/-- Map lookup on the cache: first entry whose key matches. -/
def cacheFind (cache : ValidationCache) (providerId : String) : Option CacheEntry :=
  (List.find? (fun e => e.1 == providerId) cache).map (fun e => e.2)

/-- getCachedResult (validate.ts lines 123-129): return the stored result
only when it is younger than the TTL at the current clock `now`. -/
def getCachedResult (cache : ValidationCache) (now : Nat) (providerId : String) :
    Option ValidationResult :=
  match cacheFind cache providerId with
  | some e => if now - e.timestamp < CACHE_TTL then some e.result else none
  | none => none

/-- setCachedResult (validate.ts lines 134-136): store the result under
the provider id with the current timestamp, replacing any old entry. -/
def setCachedResult (cache : ValidationCache) (providerId : String)
    (result : ValidationResult) (now : Nat) : ValidationCache :=
  (providerId, { result := result, timestamp := now }) ::
    List.filter (fun e => !(e.1 == providerId)) cache

/-- clearValidationCache (validate.ts lines 141-143): drop every entry. -/
def clearValidationCache (_cache : ValidationCache) : ValidationCache := []

/-- Underlying validation check of validateProvider (validate.ts lines
172-218), without the cache wrapper: the env / http / command strategy
selection. JavaScript truthiness of the optional strings is modelled by
comparing their `getD ""` image with the empty string, exactly matching
the `!validation.envKey` style guards of the source. -/
def runValidation (env : Env) (provider : Provider) : ValidationResult :=
  let v := provider.validation
  if v.vtype = "env" then
    if v.envKey.getD "" = "" then
      { valid := true, message := "Always available" }
    else
      let key := v.envKey.getD ""
      match env.envVar key with
      | some value =>
        if value.length > 0 then { valid := true, message := "API key configured" }
        else { valid := false, message := key ++ " not set" }
      | none => { valid := false, message := key ++ " not set" }
  else if v.vtype = "http" then
    if v.url.getD "" = "" then
      { valid := false, message := "No URL configured" }
    else
      let url := v.url.getD ""
      match env.fetch url with
      | .ok _ => { valid := true, message := "Reachable at " ++ url }
      | .timeout => { valid := false, message := "Not reachable at " ++ url }
      | .connError => { valid := false, message := "Not reachable at " ++ url }
  else if v.vtype = "command" then
    if v.command.getD "" = "" then
      { valid := false, message := "No command configured" }
    else
      let cmd := v.command.getD ""
      if env.whichFinds cmd then { valid := true, message := cmd ++ " found in PATH" }
      else { valid := false, message := cmd ++ " not found" }
  else
    { valid := false, message := "Unknown validation type" }

/-- Return value of the cached validateProvider, with the evolved cache
and a flag recording whether the underlying check ran (the
check-invocation counter the repository's tests observe via mocks). -/
structure ValidateOutcome where
  result : ValidationResult
  cache : ValidationCache
  invokedCheck : Bool

/-- validateProvider (validate.ts lines 162-223): consult the cache
unless `skipCache`, otherwise run the underlying check at clock `now` and
write the fresh result back before returning it. -/
def validateProvider (env : Env) (cache : ValidationCache) (now : Nat)
    (provider : Provider) (skipCache : Bool) : ValidateOutcome :=
  if skipCache = false then
    match getCachedResult cache now provider.id with
    | some r => { result := r, cache := cache, invokedCheck := false }
    | none =>
      let r := runValidation env provider
      { result := r, cache := setCachedResult cache provider.id r now, invokedCheck := true }
  else
    let r := runValidation env provider
    { result := r, cache := setCachedResult cache provider.id r now, invokedCheck := true }

/-- Argument list built by launchClaude for non-standalone providers
(launcher.ts lines 166-177): start from the user args, unshift the
hardcoded continue flag when requested, then unshift the hardcoded
skip-permissions flag when requested. The provider argument mirrors the
launcher having the provider in scope; the source never consults its
`continueArg` / `skipPermissionsArg` fields here. -/
def claudeLaunchArgs (_provider : Provider) (continueSession skipPermissions : Bool)
    (args : List String) : List String :=
  let a := args
  let a := if continueSession then "--continue" :: a else a
  let a := if skipPermissions then "--dangerously-skip-permissions" :: a else a
  a

/-- Candidate list of findFallbackProvider (launcher.ts lines 122-128):
providers of the registry sharing the current provider's category whose
id has not been tried yet. -/
def fallbackCandidates (cfg : ProviderConfig) (current : Provider)
    (tried : List String) : List Provider :=
  (getAllProviders cfg).filter
    (fun p => p.category == current.category && !(tried.contains p.id))

/-- Validation loop of findFallbackProvider (launcher.ts lines 130-138):
validate each candidate in order, threading the cache, and return the
first candidate whose result is valid. -/
def firstValidCandidate (env : Env) (now : Nat) :
    List Provider → ValidationCache → Option Provider × ValidationCache
  | [], cache => (none, cache)
  | p :: ps, cache =>
    let out := validateProvider env cache now p false
    if out.result.valid then (some p, out.cache)
    else firstValidCandidate env now ps out.cache

/-- findFallbackProvider (launcher.ts lines 118-139): filter the registry
to untried same-category providers and return the first valid one. -/
def findFallbackProvider (env : Env) (cache : ValidationCache) (now : Nat)
    (cfg : ProviderConfig) (current : Provider) (tried : List String) :
    Option Provider × ValidationCache :=
  firstValidCandidate env now (fallbackCandidates cfg current tried) cache

theorem firstValidCandidate_mem (env : Env) (now : Nat) :
    ∀ (l : List Provider) (cache : ValidationCache) (q : Provider)
      (c' : ValidationCache),
      firstValidCandidate env now l cache = (some q, c') → q ∈ l := by
  intro l
  induction l with
  | nil => intro cache q c' h; simp [firstValidCandidate] at h
  | cons p ps ih =>
    intro cache q c' h
    simp only [firstValidCandidate] at h
    by_cases hv : (validateProvider env cache now p false).result.valid = true
    · simp [hv] at h
      exact h.1 ▸ List.mem_cons_self p ps
    · simp [hv] at h
      exact List.mem_cons_of_mem p (ih _ q c' h)

theorem findFallbackProvider_mem (env : Env) (cache : ValidationCache) (now : Nat)
    (cfg : ProviderConfig) (current : Provider) (tried : List String)
    (q : Provider) (c' : ValidationCache)
    (h : findFallbackProvider env cache now cfg current tried = (some q, c')) :
    q ∈ getAllProviders cfg ∧ q.category = current.category ∧
      tried.contains q.id = false := by
  have hm := firstValidCandidate_mem env now _ _ _ _ h
  have hm' := List.mem_filter.mp hm
  refine ⟨hm'.1, ?_, ?_⟩
  · have := hm'.2
    simp only [Bool.and_eq_true, beq_iff_eq] at this
    exact this.1
  · have := hm'.2
    simp only [Bool.and_eq_true, Bool.not_eq_true'] at this
    exact this.2

theorem length_filter_le_of_imp {α : Type} (p q : α → Bool)
    (himp : ∀ x, q x = true → p x = true) :
    ∀ l : List α, (l.filter q).length ≤ (l.filter p).length := by
  intro l
  induction l with
  | nil => simp
  | cons x tl ih =>
    by_cases hq : q x = true
    · have hp := himp x hq
      simp only [List.filter_cons, hq, hp, if_true, List.length_cons]
      exact Nat.succ_le_succ ih
    · have hq' : q x = false := by simpa using hq
      by_cases hp : p x = true
      · simp only [List.filter_cons, hq', hp, Bool.false_eq_true, if_false, if_true,
          List.length_cons]
        exact Nat.le_succ_of_le ih
      · have hp' : p x = false := by simpa using hp
        simp only [List.filter_cons, hq', hp', Bool.false_eq_true, if_false]
        exact ih

theorem length_filter_lt_of_witness {α : Type} (p q : α → Bool)
    (himp : ∀ x, q x = true → p x = true) (a : α)
    {l : List α} (ha : a ∈ l) (hpa : p a = true) (hqa : q a = false) :
    (l.filter q).length < (l.filter p).length := by
  induction l with
  | nil => cases ha
  | cons x tl ih =>
    rcases List.mem_cons.mp ha with h | h
    · subst h
      simp only [List.filter_cons, hqa, hpa, Bool.false_eq_true, if_false, if_true,
        List.length_cons]
      exact Nat.lt_succ_of_le (length_filter_le_of_imp p q himp tl)
    · by_cases hq : q x = true
      · have hp := himp x hq
        simp only [List.filter_cons, hq, hp, if_true, List.length_cons]
        exact Nat.succ_lt_succ (ih h)
      · have hq' : q x = false := by simpa using hq
        by_cases hp : p x = true
        · simp only [List.filter_cons, hq', hp, Bool.false_eq_true, if_false, if_true,
            List.length_cons]
          exact Nat.lt_succ_of_lt (ih h)
        · have hp' : p x = false := by simpa using hp
          simp only [List.filter_cons, hq', hp', Bool.false_eq_true, if_false]
          exact ih h

theorem tried_filter_decreases (cfg : ProviderConfig) (tried : List String)
    (next : Provider) (hmem : next ∈ getAllProviders cfg)
    (hnt : tried.contains next.id = false) :
    ((getAllProviders cfg).filter
      (fun q => !((tried ++ [next.id]).contains q.id))).length <
    ((getAllProviders cfg).filter (fun q => !(tried.contains q.id))).length := by
  refine length_filter_lt_of_witness _ _ ?_ next hmem ?_ ?_
  · intro x hx
    cases hc : tried.contains x.id with
    | false => simp [hc]
    | true =>
      exfalso
      have h1 : x.id ∈ tried := by simpa using hc
      have h2 : x.id ∈ tried ++ [next.id] := List.mem_append.mpr (Or.inl h1)
      have hx' : x.id ∉ tried ++ [next.id] := by simpa using hx
      exact hx' h2
  · simpa using hnt
  · simp

/-- Outcome of one spawned child process: either the spawn itself failed
(the `error` event: executable missing, permission denied), or the child
exited with a code (`null` when killed by a signal, modelled as `none`). -/
inductive ExitOutcome where
  | spawnError
  | exited (code : Option Int)
deriving DecidableEq, Repr

/-- Observable outcome of a whole launch chain: the providers actually
launched, in order, and the code finally passed to `process.exit`. -/
structure ChainOutcome where
  attempts : List Provider
  finalExit : Int
deriving DecidableEq, Repr

/-- Launch chain of launchClaude / launchStandalone (launcher.ts lines
144-311): launch the provider; on a spawn error log and exit 1; on a
nonzero (or null) exit code with fallback enabled, ask
findFallbackProvider for the next untried valid same-category provider
and recurse with its id appended to the tried set; otherwise exit with
the child's code (`code ?? 0`). `runOutcome` is the oracle giving each
spawned child's outcome. Lean's termination checker accepts the
recursion because the untried portion of the registry shrinks at every
fallback step. -/
def launchChain (env : Env) (runOutcome : Provider → ExitOutcome)
    (cfg : ProviderConfig) (now : Nat) (fb : Bool) (provider : Provider)
    (tried : List String) (cache : ValidationCache) : ChainOutcome :=
  match runOutcome provider with
  | .spawnError => { attempts := [provider], finalExit := 1 }
  | .exited code =>
    if fb = true ∧ code ≠ some 0 then
      match h : findFallbackProvider env cache now cfg provider tried with
      | (some next, cache') =>
        let rest := launchChain env runOutcome cfg now fb next
          (tried ++ [next.id]) cache'
        { attempts := provider :: rest.attempts, finalExit := rest.finalExit }
      | (none, _) => { attempts := [provider], finalExit := code.getD 0 }
    else { attempts := [provider], finalExit := code.getD 0 }
termination_by ((getAllProviders cfg).filter (fun q => !(tried.contains q.id))).length
decreasing_by
  have hmem := findFallbackProvider_mem env cache now cfg provider tried next cache' h
  exact tried_filter_decreases cfg tried next hmem.1 hmem.2.2

/-- Entry point of a fallback chain (launchClaude, launcher.ts line 152):
the tried set starts as the singleton of the initial provider's id and
the cache starts as the module cache, taken here as a parameter. -/
def launchEntry (env : Env) (runOutcome : Provider → ExitOutcome)
    (cfg : ProviderConfig) (now : Nat) (fb : Bool) (provider : Provider)
    (cache : ValidationCache) : ChainOutcome :=
  launchChain env runOutcome cfg now fb provider [provider.id] cache

/-- Character-list test used to state that one string starts with
another. -/
def startsWithChars : List Char → List Char → Bool
  | _, [] => true
  | [], _ :: _ => false
  | c :: cs, d :: ds => if c = d then startsWithChars cs ds else false

/-- Character-list substring test used to state that a validation message
contains a given name. -/
def containsChars : List Char → List Char → Bool
  | [], pat => pat.isEmpty
  | c :: cs, pat => startsWithChars (c :: cs) pat || containsChars cs pat

/-- Substring test on strings: does `s` contain `pat` as a contiguous
substring. -/
def containsStr (s pat : String) : Bool := containsChars s.data pat.data

/-- Cache state after validating a list of providers in order, starting
from a given cache: the fold that firstValidCandidate performs while it
walks the candidate list. -/
def cacheAfter (env : Env) (now : Nat) (l : List Provider)
    (cache : ValidationCache) : ValidationCache :=
  l.foldl (fun c q => (validateProvider env c now q false).cache) cache

/-- Provider fixture used by concrete witnesses and counterexamples. -/
def sampleProvider (pid cat pty : String) (v : ValidationSpec) : Provider where
  id := pid
  name := pid
  description := ""
  icon := ""
  ptype := pty
  category := cat
  envVars := []
  configDir := "~/.sample"
  validation := v

/-- Http provider fixture whose configured url is the one from the
repository's own timeout test. -/
def slowUrlProvider : Provider :=
  sampleProvider "slow" "local" "api"
    { vtype := "http", url := some "http://slow-server.com" }

/-- Environment fixture in which every GET request times out. -/
def timeoutEnv : Env where
  envVar := fun _ => none
  fetch := fun _ => .timeout
  whichFinds := fun _ => false

/-- Environment fixture in which every GET request fails to connect. -/
def connErrorEnv : Env where
  envVar := fun _ => none
  fetch := fun _ => .connError
  whichFinds := fun _ => false

/-- Non-standalone provider fixture with no continue or skip-permissions
flag mapping of its own. -/
def gatewayNoFlagProvider : Provider :=
  sampleProvider "gw" "custom" "gateway" { vtype := "env" }

/-- Provider fixture whose check always succeeds, used to exercise the
cache. -/
def cachedProvider : Provider :=
  sampleProvider "w3" "anthropic" "api" { vtype := "env" }

/-- Cached result fixture. -/
def cachedResult : ValidationResult := { valid := true, message := "cached" }

/-- Cache fixture holding a result for cachedProvider stored at time 0. -/
def primedCache : ValidationCache :=
  [("w3", { result := cachedResult, timestamp := 0 })]

/-- Config fixture whose single override rewrites the provider id "a"
into the disabled id "b". -/
def idChangingConfig : ProviderConfig where
  providers := [sampleProvider "a" "anthropic" "api" { vtype := "env" }]
  overrides := [("a", { id := some "b" })]
  disabled := ["b"]

/-- Config fixture with a duplicated id, a disabled id, and a benign
(id-preserving) override. -/
def dupConfig : ProviderConfig where
  providers :=
    [sampleProvider "x" "anthropic" "api" { vtype := "env" },
     sampleProvider "x" "openai" "api" { vtype := "env" },
     sampleProvider "y" "anthropic" "api" { vtype := "env" },
     sampleProvider "z" "anthropic" "api" { vtype := "env" }]
  overrides := [("x", { name := some "X override" })]
  disabled := ["z"]

/-- Provider fixture used as the first provider of a fallback chain. -/
def fallbackProviderA : Provider :=
  sampleProvider "pa" "anthropic" "api" { vtype := "env" }

/-- Provider fixture used as the valid same-category fallback
candidate. -/
def fallbackProviderB : Provider :=
  sampleProvider "pb" "anthropic" "api" { vtype := "env" }

/-- Config fixture holding the two same-category providers. -/
def twoProviderConfig : ProviderConfig where
  providers := [fallbackProviderA, fallbackProviderB]
  overrides := []
  disabled := []

/-- Child-outcome fixture: the first provider fails to spawn, everything
else exits cleanly. -/
def spawnFailOutcome : Provider → ExitOutcome :=
  fun p => if p.id = "pa" then .spawnError else .exited (some 0)

theorem startsWithChars_self_append : ∀ (xs ys : List Char),
    startsWithChars (xs ++ ys) xs = true := by
  intro xs
  induction xs with
  | nil => intro ys; cases ys <;> rfl
  | cons x xs ih =>
    intro ys
    simp [startsWithChars, ih ys]

theorem containsChars_self_append (xs ys : List Char) :
    containsChars (xs ++ ys) xs = true := by
  cases hxy : xs ++ ys with
  | nil =>
    have hx : xs = [] := (List.append_eq_nil.mp hxy).1
    subst hx
    rfl
  | cons c cs =>
    simp only [containsChars]
    rw [← hxy, startsWithChars_self_append]
    simp

theorem containsStr_self_append (s t : String) : containsStr (s ++ t) s = true := by
  simp only [containsStr, String.data_append]
  exact containsChars_self_append s.data t.data

/-- C9: a malformed provider store, modelled as the read or parse step
throwing, degrades to the empty config (no providers, no overrides, no
disabled ids), and getAllProviders of that config is the empty list
rather than an error: loadProviderConfig is total over all parse
outcomes by construction. -/
theorem loadProviderConfig_malformed_yields_empty :
    loadProviderConfig (Except.error ()) =
      { providers := [], overrides := [], disabled := [] } ∧
    getAllProviders (loadProviderConfig (Except.error ())) = [] :=
  ⟨rfl, rfl⟩

/-- C10: the validation check is total over malformed validation blocks:
http with no url yields the No URL configured failure, command with no
command yields the No command configured failure, and a validation kind
outside env, http and command yields the Unknown validation type
failure. -/
theorem runValidation_total_on_malformed (env : Env) (p : Provider) :
    (p.validation.vtype = "http" → p.validation.url.getD "" = "" →
      runValidation env p = { valid := false, message := "No URL configured" }) ∧
    (p.validation.vtype = "command" → p.validation.command.getD "" = "" →
      runValidation env p = { valid := false, message := "No command configured" }) ∧
    (p.validation.vtype ≠ "env" → p.validation.vtype ≠ "http" →
      p.validation.vtype ≠ "command" →
      runValidation env p = { valid := false, message := "Unknown validation type" }) := by
  refine ⟨?_, ?_, ?_⟩
  · intro h1 h2
    simp [runValidation, h1, h2]
  · intro h1 h2
    simp [runValidation, h1, h2]
  · intro h1 h2 h3
    simp [runValidation, h1, h2, h3]

/-- C4: for env-kind validation, a provider with no (or empty, hence
falsy) envKey is always valid; with a nonempty envKey the check is valid
exactly when the named environment variable is set to a nonempty value,
and the failure message contains the envKey name. -/
theorem validateProvider_env_spec (env : Env) (p : Provider)
    (henv : p.validation.vtype = "env") :
    (p.validation.envKey.getD "" = "" →
      runValidation env p = { valid := true, message := "Always available" }) ∧
    (∀ key, p.validation.envKey = some key → key ≠ "" →
      (((runValidation env p).valid = true) ↔
        ∃ v, env.envVar key = some v ∧ 0 < v.length) ∧
      ((runValidation env p).valid = false →
        containsStr (runValidation env p).message key = true)) := by
  constructor
  · intro h
    simp [runValidation, henv, h]
  · intro key hk hne
    cases hv : env.envVar key with
    | none =>
      have hrun : runValidation env p = { valid := false, message := key ++ " not set" } := by
        simp [runValidation, henv, hk, hne, hv]
      rw [hrun]
      refine ⟨?_, ?_⟩
      · simp
      · intro _
        exact containsStr_self_append key " not set"
    | some value =>
      by_cases hpos : 0 < value.length
      · have hrun : runValidation env p = { valid := true, message := "API key configured" } := by
          simp [runValidation, henv, hk, hne, hv, hpos]
        rw [hrun]
        refine ⟨?_, ?_⟩
        · simp only [true_iff]
          exact ⟨value, rfl, hpos⟩
        · intro hfalse
          simp at hfalse
      · have hzero : value.length = 0 := Nat.eq_zero_of_not_pos hpos
        have hrun : runValidation env p = { valid := false, message := key ++ " not set" } := by
          simp [runValidation, henv, hk, hne, hv, hzero]
        rw [hrun]
        refine ⟨?_, ?_⟩
        · simp [hzero]
        · intro _
          exact containsStr_self_append key " not set"

/-- C4 witness: a provider requiring X_KEY in an environment where X_KEY
is unset is invalid with a message containing X_KEY, and one with no
envKey is always valid. -/
theorem validateProvider_env_spec_witness :
    ((sampleProvider "k" "anthropic" "api"
        { vtype := "env", envKey := some "X_KEY" }).validation.envKey.getD "" = "" →
      runValidation timeoutEnv (sampleProvider "k" "anthropic" "api"
        { vtype := "env", envKey := some "X_KEY" }) =
        { valid := true, message := "Always available" }) ∧
    (∀ key, (sampleProvider "k" "anthropic" "api"
        { vtype := "env", envKey := some "X_KEY" }).validation.envKey = some key →
      key ≠ "" →
      (((runValidation timeoutEnv (sampleProvider "k" "anthropic" "api"
          { vtype := "env", envKey := some "X_KEY" })).valid = true) ↔
        ∃ v, timeoutEnv.envVar key = some v ∧ 0 < v.length) ∧
      ((runValidation timeoutEnv (sampleProvider "k" "anthropic" "api"
          { vtype := "env", envKey := some "X_KEY" })).valid = false →
        containsStr (runValidation timeoutEnv (sampleProvider "k" "anthropic" "api"
          { vtype := "env", envKey := some "X_KEY" })).message key = true)) :=
  validateProvider_env_spec timeoutEnv
    (sampleProvider "k" "anthropic" "api" { vtype := "env", envKey := some "X_KEY" }) rfl

/-- C5 evaluated at the failing input of the repository's own test: for
the http provider with url http://slow-server.com, a timed-out GET and a
connection error produce the same failure result, whose message is Not
reachable at the url and does not contain the word timeout, so the
failure reason is not distinguished. -/
theorem http_failure_reason_not_distinguished :
    runValidation timeoutEnv slowUrlProvider =
      { valid := false, message := "Not reachable at http://slow-server.com" } ∧
    runValidation connErrorEnv slowUrlProvider = runValidation timeoutEnv slowUrlProvider ∧
    containsStr (runValidation timeoutEnv slowUrlProvider).message "timeout" = false := by
  refine ⟨by decide, by decide, by decide⟩

/-- C6 counterexample: a non-standalone provider whose continueArg and
skipPermissionsArg are absent still gets both hardcoded flags prepended
when continue and skip-permissions are requested. -/
theorem launch_flags_prepended_without_mapping :
    gatewayNoFlagProvider.continueArg = none ∧
    gatewayNoFlagProvider.skipPermissionsArg = none ∧
    gatewayNoFlagProvider.ptype ≠ "standalone" ∧
    claudeLaunchArgs gatewayNoFlagProvider true true [] =
      ["--dangerously-skip-permissions", "--continue"] := by
  refine ⟨rfl, rfl, by decide, rfl⟩

/-- C6 amended: for non-standalone launches the launcher prepends the
hardcoded continue and skip-permissions flags exactly when they are
requested, independent of the provider: the provider's own continueArg
and skipPermissionsArg fields are never consulted. -/
theorem claudeLaunchArgs_hardcoded (p q : Provider) (c s : Bool) (args : List String) :
    claudeLaunchArgs p c s args =
      (if s then ["--dangerously-skip-permissions"] else []) ++
      (if c then ["--continue"] else []) ++ args ∧
    claudeLaunchArgs p c s args = claudeLaunchArgs q c s args := by
  cases c <;> cases s <;> simp [claudeLaunchArgs]

/-- C3: reading through the cache within the TTL returns the cached
result without invoking the underlying check and leaves the cache
unchanged; skipCache bypasses the cache read but still runs the check
and writes the fresh result back, so that a read within the TTL then
sees the fresh result; and after clearing the cache the next call always
invokes the underlying check. -/
theorem validateProvider_cache_spec (env : Env) (cache : ValidationCache)
    (now now2 : Nat) (p : Provider) (r : ValidationResult)
    (hcached : getCachedResult cache now p.id = some r)
    (httl : now2 - now < CACHE_TTL) :
    validateProvider env cache now p false =
      { result := r, cache := cache, invokedCheck := false } ∧
    validateProvider env cache now p true =
      { result := runValidation env p,
        cache := setCachedResult cache p.id (runValidation env p) now,
        invokedCheck := true } ∧
    getCachedResult (validateProvider env cache now p true).cache now2 p.id =
      some (runValidation env p) ∧
    (validateProvider env (clearValidationCache cache) now p false).invokedCheck
      = true := by
  refine ⟨?_, ?_, ?_, ?_⟩
  · simp [validateProvider, hcached]
  · simp [validateProvider]
  · simp [validateProvider, setCachedResult, getCachedResult, cacheFind, List.find?, httl]
  · simp [validateProvider, clearValidationCache, getCachedResult, cacheFind, List.find?]

/-- C3 witness: on the primed cache at time 0, a cached read returns the
stored result without invoking the check, a skipCache call re-runs and
re-caches, the re-cached result is visible at time 1, and a call after a
cache clear invokes the check. -/
theorem validateProvider_cache_spec_witness :
    validateProvider timeoutEnv primedCache 0 cachedProvider false =
      { result := cachedResult, cache := primedCache, invokedCheck := false } ∧
    validateProvider timeoutEnv primedCache 0 cachedProvider true =
      { result := runValidation timeoutEnv cachedProvider,
        cache := setCachedResult primedCache cachedProvider.id
          (runValidation timeoutEnv cachedProvider) 0,
        invokedCheck := true } ∧
    getCachedResult (validateProvider timeoutEnv primedCache 0 cachedProvider true).cache
      1 cachedProvider.id = some (runValidation timeoutEnv cachedProvider) ∧
    (validateProvider timeoutEnv (clearValidationCache primedCache) 0 cachedProvider
      false).invokedCheck = true :=
  validateProvider_cache_spec timeoutEnv primedCache 0 1 cachedProvider cachedResult
    (by decide) (by decide)

theorem firstValidCandidate_found_spec (env : Env) (now : Nat) :
    ∀ (l : List Provider) (cache : ValidationCache) (q : Provider)
      (c' : ValidationCache),
      firstValidCandidate env now l cache = (some q, c') →
      ∃ i, l[i]? = some q ∧
        (validateProvider env (cacheAfter env now (l.take i) cache) now q
          false).result.valid = true ∧
        ∀ j q', j < i → l[j]? = some q' →
          (validateProvider env (cacheAfter env now (l.take j) cache) now q'
            false).result.valid = false := by
  intro l
  induction l with
  | nil => intro cache q c' h; simp [firstValidCandidate] at h
  | cons p ps ih =>
    intro cache q c' h
    simp only [firstValidCandidate] at h
    by_cases hv : (validateProvider env cache now p false).result.valid = true
    · simp only [hv, if_true] at h
      obtain ⟨hq, _⟩ := Prod.mk.injEq .. ▸ h
      cases hq
      refine ⟨0, by simp, ?_, ?_⟩
      · simpa [cacheAfter] using hv
      · intro j q' hj _
        omega
    · have hv' : (validateProvider env cache now p false).result.valid = false := by
        simpa using hv
      simp only [hv', Bool.false_eq_true, if_false] at h
      obtain ⟨i, hi, hvalid, hbefore⟩ := ih _ q c' h
      refine ⟨i + 1, by simpa using hi, ?_, ?_⟩
      · have hca : cacheAfter env now ((p :: ps).take (i + 1)) cache =
            cacheAfter env now (ps.take i)
              ((validateProvider env cache now p false).cache) := by
          simp [cacheAfter]
        rw [hca]
        exact hvalid
      · intro j q' hj hjq
        cases j with
        | zero =>
          have hq' : p = q' := by simpa using hjq
          cases hq'
          simpa [cacheAfter] using hv'
        | succ j' =>
          have hj' : j' < i := by omega
          have hres := hbefore j' q' hj' (by simpa using hjq)
          have hca : cacheAfter env now ((p :: ps).take (j' + 1)) cache =
              cacheAfter env now (ps.take j')
                ((validateProvider env cache now p false).cache) := by
            simp [cacheAfter]
          rw [hca]
          exact hres

theorem firstValidCandidate_none_spec (env : Env) (now : Nat) :
    ∀ (l : List Provider) (cache : ValidationCache),
      (firstValidCandidate env now l cache).1 = none →
      ∀ j q', l[j]? = some q' →
        (validateProvider env (cacheAfter env now (l.take j) cache) now q'
          false).result.valid = false := by
  intro l
  induction l with
  | nil => intro cache _ j q' hj; simp at hj
  | cons p ps ih =>
    intro cache h j q' hjq
    simp only [firstValidCandidate] at h
    by_cases hv : (validateProvider env cache now p false).result.valid = true
    · simp [hv] at h
    · have hv' : (validateProvider env cache now p false).result.valid = false := by
        simpa using hv
      simp only [hv', Bool.false_eq_true, if_false] at h
      cases j with
      | zero =>
        have hq' : p = q' := by simpa using hjq
        cases hq'
        simpa [cacheAfter] using hv'
      | succ j' =>
        have hres := ih _ h j' q' (by simpa using hjq)
        have hca : cacheAfter env now ((p :: ps).take (j' + 1)) cache =
            cacheAfter env now (ps.take j')
              ((validateProvider env cache now p false).cache) := by
          simp [cacheAfter]
        rw [hca]
        exact hres

/-- C8: the fallback resolver considers exactly the registry providers
sharing the current provider's category whose id is untried; it
validates them in source order, threading the cache, returns the first
valid one (everything before it having validated invalid), and returns
none exactly when every candidate validates invalid. -/
theorem findFallbackProvider_spec (env : Env) (cache : ValidationCache) (now : Nat)
    (cfg : ProviderConfig) (current : Provider) (tried : List String) :
    (∀ q c', findFallbackProvider env cache now cfg current tried = (some q, c') →
      q ∈ getAllProviders cfg ∧ q.category = current.category ∧ q.id ∉ tried ∧
      ∃ i, (fallbackCandidates cfg current tried)[i]? = some q ∧
        (validateProvider env
          (cacheAfter env now ((fallbackCandidates cfg current tried).take i) cache)
          now q false).result.valid = true ∧
        ∀ j q', j < i → (fallbackCandidates cfg current tried)[j]? = some q' →
          (validateProvider env
            (cacheAfter env now ((fallbackCandidates cfg current tried).take j) cache)
            now q' false).result.valid = false) ∧
    ((findFallbackProvider env cache now cfg current tried).1 = none →
      ∀ j q', (fallbackCandidates cfg current tried)[j]? = some q' →
        (validateProvider env
          (cacheAfter env now ((fallbackCandidates cfg current tried).take j) cache)
          now q' false).result.valid = false) := by
  constructor
  · intro q c' h
    have hmem := findFallbackProvider_mem env cache now cfg current tried q c' h
    refine ⟨hmem.1, hmem.2.1, by simpa using hmem.2.2, ?_⟩
    exact firstValidCandidate_found_spec env now _ cache q c' h
  · intro h j q' hj
    exact firstValidCandidate_none_spec env now _ cache h j q' hj

theorem dedupeById_id_not_seen : ∀ (l : List Provider) (seen : List String)
    (p : Provider), p ∈ dedupeById l seen → p.id ∉ seen := by
  intro l
  induction l with
  | nil => intro seen p h; simp [dedupeById] at h
  | cons a ps ih =>
    intro seen p h
    by_cases hs : seen.contains a.id = true
    · simp only [dedupeById, hs, if_true] at h
      exact ih seen p h
    · have hs' : seen.contains a.id = false := by simpa using hs
      simp only [dedupeById, hs', Bool.false_eq_true, if_false] at h
      rcases List.mem_cons.mp h with h1 | h1
      · cases h1; simpa using hs'
      · have hrec := ih (a.id :: seen) p h1
        intro hmem
        exact hrec (List.mem_cons_of_mem _ hmem)

theorem dedupeById_ids_nodup : ∀ (l : List Provider) (seen : List String),
    ((dedupeById l seen).map (fun p => p.id)).Nodup := by
  intro l
  induction l with
  | nil => intro seen; simp [dedupeById]
  | cons a ps ih =>
    intro seen
    by_cases hs : seen.contains a.id = true
    · simp only [dedupeById, hs, if_true]
      exact ih seen
    · have hs' : seen.contains a.id = false := by simpa using hs
      simp only [dedupeById, hs', Bool.false_eq_true, if_false, List.map_cons]
      refine List.nodup_cons.mpr ⟨?_, ih _⟩
      intro hmem
      obtain ⟨p, hp, hpid⟩ := List.mem_map.mp hmem
      exact dedupeById_id_not_seen ps (a.id :: seen) p hp (by simp [hpid])

theorem dedupeById_subset : ∀ (l : List Provider) (seen : List String)
    (p : Provider), p ∈ dedupeById l seen → p ∈ l := by
  intro l
  induction l with
  | nil => intro seen p h; simp [dedupeById] at h
  | cons a ps ih =>
    intro seen p h
    by_cases hs : seen.contains a.id = true
    · simp only [dedupeById, hs, if_true] at h
      exact List.mem_cons_of_mem a (ih seen p h)
    · have hs' : seen.contains a.id = false := by simpa using hs
      simp only [dedupeById, hs', Bool.false_eq_true, if_false] at h
      rcases List.mem_cons.mp h with h1 | h1
      · cases h1; exact List.mem_cons_self a ps
      · exact List.mem_cons_of_mem a (ih _ p h1)

theorem dedupeById_first_occurrence : ∀ (l : List Provider) (seen : List String)
    (p : Provider), p ∈ dedupeById l seen →
    l.find? (fun q => q.id == p.id) = some p := by
  intro l
  induction l with
  | nil => intro seen p h; simp [dedupeById] at h
  | cons a ps ih =>
    intro seen p h
    by_cases hs : seen.contains a.id = true
    · simp only [dedupeById, hs, if_true] at h
      have hnot := dedupeById_id_not_seen ps seen p h
      have hne : a.id ≠ p.id := by
        intro he
        rw [he] at hs
        exact hnot (by simpa using hs)
      rw [List.find?_cons_of_neg _ (by simp [hne])]
      exact ih seen p h
    · have hs' : seen.contains a.id = false := by simpa using hs
      simp only [dedupeById, hs', Bool.false_eq_true, if_false] at h
      rcases List.mem_cons.mp h with h1 | h1
      · cases h1
        rw [List.find?_cons_of_pos _ (by simp)]
      · have hnot := dedupeById_id_not_seen ps (a.id :: seen) p h1
        have hne : a.id ≠ p.id := by
          intro he
          exact hnot (by simp [← he])
        rw [List.find?_cons_of_neg _ (by simp [hne])]
        exact ih _ p h1

theorem dedupeById_complete : ∀ (l : List Provider) (seen : List String)
    (q : Provider), q ∈ l → q.id ∉ seen →
    ∃ p ∈ dedupeById l seen, p.id = q.id := by
  intro l
  induction l with
  | nil => intro seen q h _; cases h
  | cons a ps ih =>
    intro seen q hq hns
    by_cases hs : seen.contains a.id = true
    · simp only [dedupeById, hs, if_true]
      rcases List.mem_cons.mp hq with h1 | h1
      · cases h1; exact absurd (by simpa using hs) hns
      · exact ih seen q h1 hns
    · have hs' : seen.contains a.id = false := by simpa using hs
      simp only [dedupeById, hs', Bool.false_eq_true, if_false]
      by_cases he : q.id = a.id
      · exact ⟨a, List.mem_cons_self a _, he.symm⟩
      · rcases List.mem_cons.mp hq with h1 | h1
        · cases h1; exact absurd rfl he
        · obtain ⟨p, hp, hpe⟩ := ih (a.id :: seen) q h1 (by simp [he, hns])
          exact ⟨p, List.mem_cons_of_mem a hp, hpe⟩

theorem find?_of_find?_filter {α : Type} (f pred : α → Bool)
    (himp : ∀ x, pred x = true → f x = true) :
    ∀ (l : List α) (a : α), (l.filter f).find? pred = some a →
      l.find? pred = some a := by
  intro l
  induction l with
  | nil => intro a h; simp at h
  | cons x tl ih =>
    intro a h
    by_cases hp : pred x = true
    · have hf : f x = true := himp x hp
      rw [List.filter_cons, if_pos hf, List.find?_cons_of_pos _ hp] at h
      rw [List.find?_cons_of_pos _ hp]
      exact h
    · have hp' : pred x = false := by simpa using hp
      rw [List.find?_cons_of_neg _ (by simp [hp'])]
      by_cases hf : f x = true
      · rw [List.filter_cons, if_pos hf, List.find?_cons_of_neg _ (by simp [hp'])] at h
        exact ih a h
      · have hf' : f x = false := by simpa using hf
        rw [List.filter_cons, if_neg (by simp [hf'])] at h
        exact ih a h

theorem applyOverrideFor_id (cfg : ProviderConfig)
    (hov : ∀ e ∈ cfg.overrides, (e.2).id = none) (p : Provider) :
    (applyOverrideFor cfg p).id = p.id := by
  unfold applyOverrideFor
  cases hl : lookupPatch cfg.overrides p.id with
  | none => rfl
  | some o =>
    have hid : o.id = none := by
      unfold lookupPatch at hl
      cases hf : List.find? (fun e => e.1 == p.id) cfg.overrides with
      | none => rw [hf] at hl; simp at hl
      | some e =>
        rw [hf] at hl
        simp at hl
        have hmem := List.mem_of_find?_eq_some hf
        rw [← hl]
        exact hov e hmem
    simp [applyPatch, hid]

/-- C2 counterexample: because the disabled filter and the deduplication
run on raw ids before overrides are merged, an override that rewrites an
id can return a provider whose id is in the disabled set. -/
theorem getAllProviders_override_resurrects_disabled_id :
    (getAllProviders idChangingConfig).map (fun p => p.id) = ["b"] ∧
    "b" ∈ idChangingConfig.disabled ∧
    ∃ p ∈ getAllProviders idChangingConfig, p.id ∈ idChangingConfig.disabled := by
  refine ⟨by decide, by decide, by decide⟩

/-- C2 amended: provided no override carries an id field, getAllProviders
returns no provider whose id is disabled, its ids are pairwise distinct,
every returned entry is the first raw occurrence of its id (a surviving,
non-disabled one) shallow-merged with its override, and every surviving
raw id is represented by exactly one entry. -/
theorem getAllProviders_spec (cfg : ProviderConfig)
    (hov : ∀ e ∈ cfg.overrides, (e.2).id = none) :
    (∀ p ∈ getAllProviders cfg, p.id ∉ cfg.disabled) ∧
    ((getAllProviders cfg).map (fun p => p.id)).Nodup ∧
    (∀ p ∈ getAllProviders cfg, ∃ raw,
      cfg.providers.find? (fun q => q.id == raw.id) = some raw ∧
      raw.id ∉ cfg.disabled ∧ p = applyOverrideFor cfg raw ∧ p.id = raw.id) ∧
    (∀ raw ∈ cfg.providers, raw.id ∉ cfg.disabled →
      ∃ p ∈ getAllProviders cfg, p.id = raw.id) := by
  have hfiltmem : ∀ raw, raw ∈ cfg.providers.filter
      (fun p => !(cfg.disabled.contains p.id)) → raw.id ∉ cfg.disabled := by
    intro raw hraw
    have h2 := (List.mem_filter.mp hraw).2
    simpa using h2
  refine ⟨?_, ?_, ?_, ?_⟩
  · intro p hp
    obtain ⟨raw, hraw, hpr⟩ := List.mem_map.mp hp
    have hid : p.id = raw.id := by rw [← hpr]; exact applyOverrideFor_id cfg hov raw
    have hmemf := dedupeById_subset _ [] raw hraw
    rw [hid]
    exact hfiltmem raw hmemf
  · have hcongr : (getAllProviders cfg).map (fun p => p.id) =
        (dedupeById (cfg.providers.filter (fun p => !(cfg.disabled.contains p.id))) []).map
          (fun p => p.id) := by
      simp only [getAllProviders, List.map_map]
      exact List.map_congr_left (fun a _ => applyOverrideFor_id cfg hov a)
    rw [hcongr]
    exact dedupeById_ids_nodup _ []
  · intro p hp
    obtain ⟨raw, hraw, hpr⟩ := List.mem_map.mp hp
    have hmemf := dedupeById_subset _ [] raw hraw
    have hnd : raw.id ∉ cfg.disabled := hfiltmem raw hmemf
    refine ⟨raw, ?_, hnd, hpr.symm, ?_⟩
    · have hff := dedupeById_first_occurrence _ [] raw hraw
      refine find?_of_find?_filter _ _ ?_ _ raw hff
      intro x hx
      have hxe : x.id = raw.id := by simpa using hx
      simp [hxe, hnd]
    · rw [← hpr]
      exact applyOverrideFor_id cfg hov raw
  · intro raw hraw hnd
    have hmemf : raw ∈ cfg.providers.filter
        (fun p => !(cfg.disabled.contains p.id)) := by
      refine List.mem_filter.mpr ⟨hraw, ?_⟩
      simpa using hnd
    obtain ⟨p, hp, hpe⟩ := dedupeById_complete _ [] raw hmemf (by simp)
    refine ⟨applyOverrideFor cfg p, List.mem_map_of_mem _ hp, ?_⟩
    rw [applyOverrideFor_id cfg hov p]
    exact hpe

/-- C2 witness: on the duplicated-id config with a benign override, the
amended registry contract holds. -/
theorem getAllProviders_spec_witness :
    (∀ p ∈ getAllProviders dupConfig, p.id ∉ dupConfig.disabled) ∧
    ((getAllProviders dupConfig).map (fun p => p.id)).Nodup ∧
    (∀ p ∈ getAllProviders dupConfig, ∃ raw,
      dupConfig.providers.find? (fun q => q.id == raw.id) = some raw ∧
      raw.id ∉ dupConfig.disabled ∧ p = applyOverrideFor dupConfig raw ∧
      p.id = raw.id) ∧
    (∀ raw ∈ dupConfig.providers, raw.id ∉ dupConfig.disabled →
      ∃ p ∈ getAllProviders dupConfig, p.id = raw.id) :=
  getAllProviders_spec dupConfig (by decide)

theorem launchChain_attempts_le (env : Env) (runOutcome : Provider → ExitOutcome)
    (cfg : ProviderConfig) (now : Nat) (fb : Bool) :
    ∀ (n : Nat) (p : Provider) (tried : List String) (cache : ValidationCache),
      ((getAllProviders cfg).filter (fun q => !(tried.contains q.id))).length ≤ n →
      (launchChain env runOutcome cfg now fb p tried cache).attempts.length ≤ 1 + n := by
  intro n
  induction n with
  | zero =>
    intro p tried cache hn
    rw [launchChain]
    split
    · simp
    · rename_i code
      split
      · split
        · rename_i next cache' hff
          exfalso
          have hmem := findFallbackProvider_mem env cache now cfg p tried next cache' hff
          have hmf : next ∈ (getAllProviders cfg).filter
              (fun q => !(tried.contains q.id)) :=
            List.mem_filter.mpr ⟨hmem.1, by simpa using hmem.2.2⟩
          have hpos : 0 < ((getAllProviders cfg).filter
              (fun q => !(tried.contains q.id))).length :=
            List.length_pos.mpr (List.ne_nil_of_mem hmf)
          omega
        · simp
      · simp
  | succ n ih =>
    intro p tried cache hn
    rw [launchChain]
    split
    · simp
    · rename_i code
      split
      · split
        · rename_i next cache' hff
          have hmem := findFallbackProvider_mem env cache now cfg p tried next cache' hff
          have hlt := tried_filter_decreases cfg tried next hmem.1 hmem.2.2
          have hle : ((getAllProviders cfg).filter
              (fun q => !((tried ++ [next.id]).contains q.id))).length ≤ n := by omega
          have hrec := ih next (tried ++ [next.id]) cache' hle
          simp only [List.length_cons]
          omega
        · simp
      · simp

/-- C1: findFallbackProvider never returns an already-tried id, and the
whole chain performs at most one launch more than there are untried
registry providers; started from the entry point, whose tried set is the
singleton of the initial id, the attempt count is bounded by the
registry size plus one. Termination itself is witnessed by launchChain
being accepted as a total function. -/
theorem fallback_chain_terminates (env : Env) (runOutcome : Provider → ExitOutcome)
    (cfg : ProviderConfig) (now : Nat) (fb : Bool) (p : Provider)
    (tried : List String) (cache : ValidationCache) :
    (∀ q c', findFallbackProvider env cache now cfg p tried = (some q, c') →
      q.id ∉ tried ∧ q ∈ getAllProviders cfg) ∧
    (launchChain env runOutcome cfg now fb p tried cache).attempts.length ≤
      1 + ((getAllProviders cfg).filter (fun q => !(tried.contains q.id))).length ∧
    (launchEntry env runOutcome cfg now fb p cache).attempts.length ≤
      1 + (getAllProviders cfg).length := by
  refine ⟨?_, ?_, ?_⟩
  · intro q c' h
    have hm := findFallbackProvider_mem env cache now cfg p tried q c' h
    exact ⟨by simpa using hm.2.2, hm.1⟩
  · exact launchChain_attempts_le env runOutcome cfg now fb _ p tried cache (le_refl _)
  · have hb := launchChain_attempts_le env runOutcome cfg now fb
      ((getAllProviders cfg).filter (fun q => !([p.id].contains q.id))).length
      p [p.id] cache (le_refl _)
    have hfl : ((getAllProviders cfg).filter
        (fun q => !([p.id].contains q.id))).length ≤ (getAllProviders cfg).length :=
      List.length_filter_le _ _
    unfold launchEntry
    omega

/-- C7 counterexample: with fallback enabled and a valid untried
same-category candidate available, a spawn error still terminates the
chain at once with exit code 1: no fallback attempt is made, although
the resolver would have found the second provider. -/
theorem spawn_error_no_fallback_attempt :
    launchEntry timeoutEnv spawnFailOutcome twoProviderConfig 0 true fallbackProviderA [] =
      { attempts := [fallbackProviderA], finalExit := 1 } ∧
    (findFallbackProvider timeoutEnv [] 0 twoProviderConfig fallbackProviderA ["pa"]).1 =
      some fallbackProviderB := by
  constructor
  · show launchChain timeoutEnv spawnFailOutcome twoProviderConfig 0 true
      fallbackProviderA ["pa"] [] = _
    rw [launchChain]
    have hout : spawnFailOutcome fallbackProviderA = ExitOutcome.spawnError := by decide
    rw [hout]
  · decide

/-- C7 amended: when the child fails to spawn, the launcher exits with
code 1 immediately; no fallback is attempted even in a fallback-enabled
chain. -/
theorem launchChain_spawn_error (env : Env) (runOutcome : Provider → ExitOutcome)
    (cfg : ProviderConfig) (now : Nat) (fb : Bool) (p : Provider)
    (tried : List String) (cache : ValidationCache)
    (h : runOutcome p = ExitOutcome.spawnError) :
    launchChain env runOutcome cfg now fb p tried cache =
      { attempts := [p], finalExit := 1 } := by
  rw [launchChain, h]

/-- C7 witness: the spawn-error rule evaluated on the two-provider
fixture. -/
theorem launchChain_spawn_error_witness :
    spawnFailOutcome fallbackProviderA = ExitOutcome.spawnError ∧
    launchChain timeoutEnv spawnFailOutcome twoProviderConfig 0 true fallbackProviderA
      ["pa"] [] = { attempts := [fallbackProviderA], finalExit := 1 } :=
  ⟨by decide,
    launchChain_spawn_error timeoutEnv spawnFailOutcome twoProviderConfig 0 true
      fallbackProviderA ["pa"] [] (by decide)⟩

end AgentCli
